import Mathlib

/-!
Verification of the Right-Track backend's core extraction and caching logic
(`server.py`), as a shallow embedding in Lean 4.

Conventions of the embedding:
* HTML documents are modelled at the level of the structural observations the
  scraper makes of them: a station-search document is the list of its result
  table's rows (each row the list of its cells' raw texts); a departures
  document is a list of `Block`s (one per styled train block, recording the
  block's descendant anchors, the optional `t` attribute of its
  `div.reg.trnsumm` next sibling, the texts of its direct child `div`s and of
  its bordered cells); a timetable document is, for each stop-number marker
  element, the list of the texts of the marker's parent's direct child `div`s.
* Texts obtained through BeautifulSoup's `get_text(strip=True)` are stored
  already stripped; texts obtained through `.text` are stored raw and the
  extractor applies `pyStrip` where the Python calls `.strip()`.
* Python string truthiness (`or` chains, `if not x`) is modelled explicitly
  (`pyOrS`, emptiness tests); machine floats never reach the verified logic,
  so latitude/longitude values are carried as their raw JSON strings.
* `time.time()` is modelled by an explicit natural-number clock passed to the
  cache operations.
-/

/-- Whitespace as Python's `str.strip()` removes it (space, tab, newline,
carriage return, vertical tab, form feed). -/
def isPySpace (c : Char) : Bool :=
  c == ' ' || c == '\t' || c == '\n' || c == '\r' || c.toNat == 11 || c.toNat == 12

/-- Python `s.strip()`: drop leading and trailing whitespace. -/
def pyStrip (s : String) : String :=
  String.mk (((s.data.dropWhile isPySpace).reverse.dropWhile isPySpace).reverse)

/-- Python string `or` with a default: an empty (falsy) or absent string falls
through to the default, as in `timetable_slug or slugify(...)`. -/
def pyOrS (o : Option String) (d : String) : String :=
  match o with
  | some s => if s = "" then d else s
  | none => d

/-- Python truthiness of an optional string: present and non-empty. -/
def pyTruthy (o : Option String) : Bool :=
  match o with
  | some s => !(s == "")
  | none => false

/-! ## Slug normalizer (`slugify`, server.py lines 60-66) -/

/-- `[a-z0-9]` by code point (`a` = 97, `z` = 122, `0` = 48, `9` = 57). -/
def isLowerDigit (c : Char) : Bool :=
  (97 ≤ c.toNat && c.toNat ≤ 122) || (48 ≤ c.toNat && c.toNat ≤ 57)

/-- The character class `[a-z0-9\-]` kept by `re.sub(r"[^a-z0-9\-]+", "", s)`. -/
def inSlugClass (c : Char) : Bool :=
  isLowerDigit c || c == '-'

/-- `text.lower()` restricted to its ASCII action (`A`-`Z` is 65-90; adding 32
reaches the lower-case letter).  Characters outside `[a-z0-9-]` after lowering
are dropped by the subsequent filter either way. -/
def asciiLower (c : Char) : Char :=
  if 65 ≤ c.toNat ∧ c.toNat ≤ 90 then Char.ofNat (c.toNat + 32) else c

/-- `s.replace("(", "").replace(")", "")`. -/
def dropParens (l : List Char) : List Char :=
  l.filter (fun c => !(c == '(') && !(c == ')'))

/-- `s.replace("/", "-").replace(" ", "-")`. -/
def slashSpaceToHyphen (l : List Char) : List Char :=
  l.map (fun c => if c == '/' || c == ' ' then '-' else c)

/-- `s.replace("&", "and")`. -/
def ampToAnd (l : List Char) : List Char :=
  l.flatMap (fun c => if c == '&' then ['a', 'n', 'd'] else [c])

/-- `re.sub(r"[^a-z0-9\-]+", "", s)`: keep only `[a-z0-9-]`. -/
def keepSlugClass (l : List Char) : List Char :=
  l.filter inSlugClass

/-- `re.sub(r"-{2,}", "-", s)`: every maximal run of hyphens becomes one. -/
def collapseHyphens : List Char → List Char
  | [] => []
  | [c] => [c]
  | a :: b :: rest =>
    if a = '-' ∧ b = '-' then collapseHyphens (b :: rest)
    else a :: collapseHyphens (b :: rest)

/-- `s.strip("-")`: drop leading and trailing hyphens. -/
def stripHyphens (l : List Char) : List Char :=
  ((l.dropWhile (fun c => c == '-')).reverse.dropWhile (fun c => c == '-')).reverse

/-- `slugify` (server.py lines 60-66): lower-case, strip parentheses, map
slash/space to hyphen and ampersand to "and", drop everything outside
`[a-z0-9-]`, collapse repeated hyphens, trim hyphens at the ends. -/
def slugify (text : String) : String :=
  String.mk (stripHyphens (collapseHyphens (keepSlugClass
    (ampToAnd (slashSpaceToHyphen (dropParens (text.data.map asciiLower)))))))

/-! ## Result cache (`cache_get` / `cache_set`, server.py lines 34-58) -/

/-- `CACHE_TTL_SECONDS = 60 * 60 * 6`. -/
def CACHE_TTL_SECONDS : Nat := 60 * 60 * 6

/-- The process-wide `CACHE` dict: keys mapped to `(timestamp, value)`.
Modelled as an association list whose first binding of a key is current. -/
def CacheState (V : Type) : Type := List (String × Nat × V)

/-- Lookup of `CACHE.get(key)`. -/
def cacheFind {V : Type} (c : CacheState V) (k : String) : Option (Nat × V) :=
  (c.find? (fun e => e.1 == k)).map (fun e => e.2)

/-- `del CACHE[key]`. -/
def cacheErase {V : Type} (c : CacheState V) (k : String) : CacheState V :=
  c.filter (fun e => !(e.1 == k))

/-- `cache_get` (server.py lines 47-55): a missing key is a miss; a present
entry older than the TTL is deleted and reported as a miss; otherwise the
stored value is returned.  The pair carries the updated cache state. -/
def cache_get {V : Type} (c : CacheState V) (k : String) (now : Nat) :
    Option V × CacheState V :=
  match cacheFind c k with
  | none => (none, c)
  | some (ts, v) =>
    if CACHE_TTL_SECONDS < now - ts then (none, cacheErase c k)
    else (some v, c)

/-- `cache_set` (server.py lines 57-58): store `(time.time(), value)`. -/
def cache_set {V : Type} (c : CacheState V) (k : String) (v : V) (now : Nat) :
    CacheState V :=
  (k, now, v) :: cacheErase c k

/-! ## Station search extraction (`station_search`, server.py lines 83-104) -/

structure StationMatch where
  sid : String
  code : String
  name : String
  division : String
  full : String
  location : String
deriving DecidableEq, Repr

/-- The record built from one visited row pair (server.py lines 90-103):
five `.text.strip()` values of the primary row, the third of the secondary. -/
def mkStation (main sub : List String) : StationMatch :=
  { sid := pyStrip (main.getD 0 "")
    code := pyStrip (main.getD 1 "")
    name := pyStrip (main.getD 2 "")
    division := pyStrip (main.getD 3 "")
    full := pyStrip (main.getD 4 "")
    location := pyStrip (sub.getD 2 "") }

/-- The row walk of `station_search`: `for i in range(0, max(0, len(rows)-2), 2)`
over the rows of `table.dropdowntable` (the even indices below
`len(rows) - 2`); each visited pair must have at least 5 cells in the primary
row and 3 in the secondary row, else it is skipped. -/
def extract_station_matches (rows : List (List String)) : List StationMatch :=
  (List.range (rows.length - 2)).filterMap (fun i =>
    if i % 2 = 0 then
      let main := rows.getD i []
      let sub := rows.getD (i + 1) []
      if main.length < 5 ∨ sub.length < 3 then none
      else some (mkStation main sub)
    else none)

/-! ## Departures extraction (`departures`, server.py lines 108-202) -/

/-- An `<a>` element with an `href` attribute and an optional `title`. -/
structure Anchor where
  href : String
  title : Option String
deriving DecidableEq, Repr

/-- A bordered cell (`div.tdborder`, `div.tdborderhighlight`,
`div.tdborderlast`): its `get_text(strip=True)` value and the first descendant
anchor carrying an `href`, if any. -/
structure BCell where
  text : String
  innerAnchor : Option Anchor
deriving DecidableEq, Repr

/-- One styled train block (`div[style*="line-height:20px;"]`):
`anchors` are its descendant anchors with an `href`, in document order;
`siblingT` is the `t` attribute of the next sibling `div.reg.trnsumm`, when
that sibling exists and has the attribute; `directCells` are the
`get_text(strip=True)` values of its direct child `div`s; `borderedCells`
are its bordered cells in document order. -/
structure Block where
  anchors : List Anchor
  siblingT : Option String
  directCells : List String
  borderedCells : List BCell
deriving DecidableEq, Repr

/-- `str(data.get("dest", "")).strip() or "0"` (server.py line 116). -/
def normalizeDest (raw : Option String) : String :=
  match raw with
  | none => "0"
  | some s => if pyStrip s = "" then "0" else pyStrip s

/-- The literal `"/train/timetable/"` of the anchor scan and of the regex. -/
def ttLit : List Char := "/train/timetable/".data

/-- Needle-is-prefix test on character lists. -/
def hasPre : List Char → List Char → Bool
  | [], _ => true
  | _ :: _, [] => false
  | a :: as, b :: bs => a == b && hasPre as bs

/-- Needle-occurs-somewhere test on character lists (`"x" in s`). -/
def hasSub (n : List Char) : List Char → Bool
  | [] => hasPre n []
  | c :: rest => hasPre n (c :: rest) || hasSub n rest

/-- `'0' ≤ c ≤ '9'` (`\d` over ASCII input). -/
def isDigitChar (c : Char) : Bool :=
  48 ≤ c.toNat && c.toNat ≤ 57

/-- The group part of `re.search(r"/train/timetable/([^/]+)/(\d+)", href)` at
one candidate position, given the text after the literal: `([^/]+)` is the
maximal non-slash run (which must be non-empty and followed by `/`), `(\d+)`
the maximal digit run after that slash (non-empty). -/
def parseAfterLit (l : List Char) : Option (List Char × List Char) :=
  let g1 := l.takeWhile (fun c => !(c == '/'))
  let r1 := l.dropWhile (fun c => !(c == '/'))
  if g1.isEmpty then none
  else
    match r1 with
    | [] => none
    | _ :: r2 =>
      let g2 := r2.takeWhile isDigitChar
      if g2.isEmpty then none else some (g1, g2)

/-- `re.search(r"/train/timetable/([^/]+)/(\d+)", href)`: try every position
left to right; at each, the literal must match and then `parseAfterLit` must
succeed, else the search restarts one character later. -/
def searchTT : List Char → Option (List Char × List Char)
  | [] => none
  | c :: rest =>
    if hasPre ttLit (c :: rest) then
      match parseAfterLit (List.drop ttLit.length (c :: rest)) with
      | some p => some p
      | none => searchTT rest
    else searchTT rest

/-- The `name_anchor` scan (server.py lines 132-139): the first descendant
anchor whose `href` contains `"/train/timetable/"`.  (The `select_one`
fallback at lines 137-139 searches the same anchors and so can never find one
when this scan found none.) -/
def findNameAnchor (b : Block) : Option Anchor :=
  b.anchors.find? (fun a => hasSub ttLit a.href.data)

/-- The regex match against the name anchor's `href` (lines 141-147). -/
def anchorParsed (b : Block) : Option (List Char × List Char) :=
  (findNameAnchor b).bind (fun a => searchTT a.href.data)

/-- `timetable_slug`: group 1 of the regex match, when it matched. -/
def canonicalSlug (b : Block) : Option String :=
  (anchorParsed b).map (fun p => String.mk p.1)

/-- `internal_id`: group 2 of the regex match; when the regex did not match
(group 2 is never empty, so `if not internal_id` is exactly "no match"), the
`t` attribute of the `div.reg.trnsumm` next sibling (lines 149-152). -/
def recoveredId (b : Block) : Option String :=
  match (anchorParsed b).map (fun p => String.mk p.2) with
  | some i => some i
  | none => b.siblingT

/-- `name_anchor["title"].split("|")[0].strip()`. -/
def titleHead (ti : String) : String :=
  pyStrip (String.mk (ti.data.takeWhile (fun c => !(c == '|'))))

/-- `cells[i].get_text(strip=True) if i < len(cells) else None` over the
direct child cells. -/
def dirT (b : Block) (i : Nat) : Option String :=
  b.directCells[i]?

/-- The same accessor over the bordered cells. -/
def borT (b : Block) (i : Nat) : Option String :=
  (b.borderedCells[i]?).map BCell.text

/-- The `name` computation of the direct layout (lines 160-163): the name
anchor's `title` head when the anchor exists and has a title, else cell 1. -/
def directName (b : Block) : Option String :=
  match findNameAnchor b with
  | some a =>
    match a.title with
    | some ti => some (titleHead ti)
    | none => dirT b 1
  | none => dirT b 1

/-- The `name` computation of the routed layout (lines 169-177): when at
least two bordered cells exist, the title head of the first anchor inside
cell 1 when that anchor exists and has a title, else cell 1's text. -/
def routedName (b : Block) : Option String :=
  if 2 ≤ b.borderedCells.length then
    match (b.borderedCells[1]?).bind BCell.innerAnchor with
    | some a =>
      match a.title with
      | some ti => some (titleHead ti)
      | none => borT b 1
    | none => borT b 1
  else borT b 1

/-- One emitted departures record (the JSON object of lines 188-199). -/
structure DepRecord where
  train_no : Option String
  name : Option String
  ttype : Option String
  zone : Option String
  platform : Option String
  from_stn : Option String
  departure_time : Option String
  to_stn : Option String
  arrival_time : Option String
  train_url : Option String
deriving DecidableEq, Repr

/-- `train_url` (lines 183-186): only when `internal_id` is truthy; the slug
is the canonical one when the regex gave one, else
`slugify(f"{name}-{train_no}")`. -/
def trainUrlOf (sid dest : String) (slugC idC : Option String)
    (tns nms : String) : Option String :=
  match idC with
  | some i =>
    if i = "" then none
    else some ("/train/timetable/" ++ pyOrS slugC (slugify (nms ++ "-" ++ tns)) ++
      "/" ++ i ++ "/" ++ sid ++ "/" ++ dest)
  | none => none

/-- The acceptance test and record construction shared by both layouts
(lines 180-199): a block is dropped (`continue`) unless `train_no` and `name`
are both truthy; `departure_time` is stored from the arrival cell and
`arrival_time` from the departure cell, exactly as the source appends them. -/
def mkRecord (sid dest : String) (slugC idC tn nm ty zo pf fr dp toS ar : Option String) :
    Option DepRecord :=
  match tn, nm with
  | some tns, some nms =>
    if tns = "" ∨ nms = "" then none
    else some
      { train_no := some tns
        name := some nms
        ttype := ty
        zone := zo
        platform := pf
        from_stn := fr
        departure_time := ar
        to_stn := toS
        arrival_time := dp
        train_url := trainUrlOf sid dest slugC idC tns nms }
  | _, _ => none

/-- Processing of one block (the body of the `for block in blocks` loop,
lines 125-199).  With a destination (`dest != "0"`) the direct layout reads
the direct child cells at positions 0,1,2,3,4,5,6,7,9; without one the routed
layout reads the bordered cells at positions 0,1,2,3,4,6,7,8,9.  `mkRecord`'s
cell arguments are ordered type, zone, platform, from, departure, to,
arrival. -/
def processBlock (sid dest : String) (b : Block) : Option DepRecord :=
  if dest ≠ "0" then
    mkRecord sid dest (canonicalSlug b) (recoveredId b) (dirT b 0) (directName b)
      (dirT b 2) (dirT b 3) (dirT b 5) (dirT b 4) (dirT b 6) (dirT b 7) (dirT b 9)
  else
    mkRecord sid dest (canonicalSlug b) (recoveredId b) (borT b 0) (routedName b)
      (borT b 2) (borT b 3) (borT b 4) (borT b 6) (borT b 7) (borT b 8) (borT b 9)

/-- The whole extraction: every block, skipped blocks contributing nothing. -/
def extract_departures (sid dest : String) (blocks : List Block) : List DepRecord :=
  blocks.filterMap (processBlock sid dest)

/-! ## Timetable extraction (`timetable`, server.py lines 217-235) -/

structure TimetableRow where
  code : String
  station_name : String
  arrives : String
  departs : String
  platform : String
deriving DecidableEq, Repr

/-- For each stop-number marker (`div[style*="width:35px;"]`), the input is
the list of `get_text(strip=True)` values of the marker's parent's direct
child `div`s; a row needs at least 17 of them, and reads positions 2 (code),
3 (name), 6 (arrives), 8 (departs) and 11 (platform). -/
def extract_timetable (parents : List (List String)) : List TimetableRow :=
  parents.filterMap (fun cells =>
    if cells.length < 17 then none
    else some
      { code := cells.getD 2 ""
        station_name := cells.getD 3 ""
        arrives := cells.getD 6 ""
        departs := cells.getD 8 ""
        platform := cells.getD 11 "" })

/-! ## Geocoding (`geocode_station`, server.py lines 241-249) -/

/-- One entry of the Nominatim JSON array, with its `lat`/`lon` fields kept
as the raw strings the JSON carries (the source converts them with `float`,
a presentation step outside this embedding). -/
structure GeoHit where
  lat : String
  lon : String
deriving DecidableEq, Repr

/-- A completed (non-raising) response of the geocoder: HTTP status and
decoded body. -/
structure NominatimResponse where
  status : Nat
  body : List GeoHit
deriving DecidableEq, Repr

/-- `geocode_station` (lines 241-249) on a completed response: `None` when
the status is not 200, `None` when the result array is empty, else the first
hit.  (A transport failure raises out of the function and is not a value of
this model.) -/
def geocode_station (resp : NominatimResponse) : Option GeoHit :=
  if resp.status ≠ 200 then none
  else
    match resp.body with
    | [] => none
    | h :: _ => some h

/-! ## Overpass result parsing (`parse_overpass_result`, server.py
lines 268-302) -/

/-- One element of the Overpass payload: its type string, raw coordinate
fields, optional synthesized `center`, tag dictionary (an association list,
first binding current) and numeric id. -/
structure OsmElement where
  etype : String
  lat : Option String
  lon : Option String
  center : Option (String × String)
  tags : List (String × String)
  eid : Option Nat
deriving DecidableEq, Repr

/-- `tags.get(k)`. -/
def tagGet (tags : List (String × String)) (k : String) : Option String :=
  (tags.find? (fun e => e.1 == k)).map (fun e => e.2)

structure POI where
  eid : Option Nat
  osm_type : String
  name : String
  type_str : String
  lat : String
  lon : String
  tags : List (String × String)
  emergency : Bool
deriving DecidableEq, Repr

/-- The fixed priority list of tag keys for `type_str` (line 283). -/
def typeKeys : List String :=
  ["railway", "public_transport", "amenity", "office", "building", "highway",
   "entrance"]

/-- `type_str` (lines 282-286): the present keys of the priority list joined
as `key=value` with `", "`, or `"other"` when none is present. -/
def typeSummary (tags : List (String × String)) : String :=
  let parts := typeKeys.filterMap (fun k => (tagGet tags k).map (fun v => k ++ "=" ++ v))
  if parts.isEmpty then "other" else String.intercalate ", " parts

/-- The emergency flag (lines 287-291): `"police"` or `"hospital"` occurs in
`tags.get("amenity", "")`, or any of `emergency`, `emergency_phone`,
`contact:phone` is truthy. -/
def emergencyOf (tags : List (String × String)) : Bool :=
  (hasSub ("police".data) ((tagGet tags "amenity").getD "").data ||
    hasSub ("hospital".data) ((tagGet tags "amenity").getD "").data) ||
  (pyTruthy (tagGet tags "emergency") || pyTruthy (tagGet tags "emergency_phone") ||
    pyTruthy (tagGet tags "contact:phone"))

/-- `name` derivation (line 281): `tags.get("name") or tags.get("ref") or
tags.get("operator") or ""`. -/
def poiName (tags : List (String × String)) : String :=
  pyOrS (tagGet tags "name") (pyOrS (tagGet tags "ref") (pyOrS (tagGet tags "operator") ""))

/-- The record appended for one parsed element (lines 292-301). -/
def mkPOI (el : OsmElement) (lat lon : String) : POI :=
  { eid := el.eid
    osm_type := el.etype
    name := poiName el.tags
    type_str := typeSummary el.tags
    lat := lat
    lon := lon
    tags := el.tags
    emergency := emergencyOf el.tags }

/-- Per-element parse (lines 270-301): a node uses its own coordinates
(default `0` when absent); any other element needs a `center`, else it is
dropped. -/
def parseElement (el : OsmElement) : Option POI :=
  if el.etype = "node" then
    some (mkPOI el (el.lat.getD "0") (el.lon.getD "0"))
  else
    match el.center with
    | none => none
    | some c => some (mkPOI el c.1 c.2)

/-- `parse_overpass_result`: every element, dropped ones contributing
nothing. -/
def parse_overpass_result (els : List OsmElement) : List POI :=
  els.filterMap parseElement

/-! ## Helper lemmas -/

/-- `pyTruthy` holds exactly of a present, non-empty string. -/
theorem pyTruthy_iff (o : Option String) : pyTruthy o = true ↔ ∃ v, o = some v ∧ v ≠ "" := by
  cases o with
  | none => simp [pyTruthy]
  | some s => simp [pyTruthy]

/-- Projections of an accepted `mkRecord`. -/
theorem mkRecord_eq_some {sid dest : String}
    {slugC idC tn nm ty zo pf fr dp toS ar : Option String} {r : DepRecord}
    (h : mkRecord sid dest slugC idC tn nm ty zo pf fr dp toS ar = some r) :
    (∃ tns, tn = some tns ∧ tns ≠ "" ∧ r.train_no = some tns) ∧
    (∃ nms, nm = some nms ∧ nms ≠ "" ∧ r.name = some nms) ∧
    r.ttype = ty ∧ r.zone = zo ∧ r.platform = pf ∧ r.from_stn = fr ∧
    r.departure_time = ar ∧ r.to_stn = toS ∧ r.arrival_time = dp ∧
    (∀ tns nms, tn = some tns → nm = some nms →
      r.train_url = trainUrlOf sid dest slugC idC tns nms) := by
  cases tn with
  | none => simp [mkRecord] at h
  | some tns =>
    cases nm with
    | none => simp [mkRecord] at h
    | some nms =>
      by_cases he : tns = "" ∨ nms = ""
      · simp [mkRecord, he] at h
      · push_neg at he
        simp only [mkRecord, if_neg (by tauto : ¬(tns = "" ∨ nms = ""))] at h
        obtain ⟨rfl⟩ := Option.some.inj h
        refine ⟨⟨tns, rfl, he.1, rfl⟩, ⟨nms, rfl, he.2, rfl⟩, rfl, rfl, rfl, rfl,
          rfl, rfl, rfl, ?_⟩
        intro tns' nms' h1 h2
        obtain ⟨rfl⟩ := Option.some.inj h1
        obtain ⟨rfl⟩ := Option.some.inj h2
        rfl

/-- The direct layout never looks at the bordered cells. -/
theorem processBlock_direct_ignores_bordered (sid dest : String) (hd : dest ≠ "0")
    (b : Block) (bc : List BCell) :
    processBlock sid dest { b with borderedCells := bc } = processBlock sid dest b := by
  simp only [processBlock, if_pos hd]
  rfl

/-- The routed layout never looks at the direct child cells. -/
theorem processBlock_routed_ignores_direct (sid : String) (b : Block)
    (dc : List String) :
    processBlock sid "0" { b with directCells := dc } = processBlock sid "0" b := by
  simp only [processBlock]
  rfl

/-! ## C1: station-match extraction and the end of the row walk -/

/-- C1 counterexample: a document whose dropdown table holds exactly one
well-formed row pair (primary row with 5 cells, secondary row with 3 cells)
yields zero `StationMatch`es, not one: the walk
`range(0, max(0, len(rows)-2), 2)` is empty for two rows, so the pair is
never visited. -/
theorem station_one_pair_counterexample :
    (["1", "ST", "Surat", "WR", "Surat WR"] : List String).length = 5 ∧
    (["x", "y", "Gujarat"] : List String).length = 3 ∧
    extract_station_matches
      [["1", "ST", "Surat", "WR", "Surat WR"], ["x", "y", "Gujarat"]] = [] := by
  refine ⟨rfl, rfl, ?_⟩
  decide

/-- C1 as amended: the scan stops two rows before the end of the table, so a
document with exactly one row pair (well-formed or not) yields zero matches;
a document with two valid pairs followed by a third pair (in particular a
truncated one) yields exactly the two matches of the first two pairs, the
trailing pair never being visited; a document with only a truncated pair
yields zero matches without error. -/
theorem station_scan_stops_short (m1 s1 m2 s2 mt st : List String)
    (h1 : 5 ≤ m1.length) (h2 : 3 ≤ s1.length)
    (h3 : 5 ≤ m2.length) (h4 : 3 ≤ s2.length) :
    extract_station_matches [m1, s1, m2, s2, mt, st] =
      [mkStation m1 s1, mkStation m2 s2] ∧
    (∀ main sub : List String, extract_station_matches [main, sub] = []) ∧
    extract_station_matches [mt, st] = [] := by
  refine ⟨?_, fun main sub => rfl, rfl⟩
  have e1 : ¬(m1.length < 5 ∨ s1.length < 3) := by omega
  have e2 : ¬(m2.length < 5 ∨ s2.length < 3) := by omega
  simp only [extract_station_matches, List.length_cons, List.length_nil,
    show (List.range (6 - 2)) = [0, 1, 2, 3] from rfl, List.filterMap_cons,
    List.filterMap_nil]
  norm_num [e1, e2, List.getD]

/-- C1 witness: the amended theorem at a concrete six-row document. -/
theorem station_scan_stops_short_witness :
    extract_station_matches
      [["1", "ST", "Surat", "WR", "Surat WR"], ["x", "y", "Gujarat"],
       ["2", "BCT", "Mumbai", "WR", "Mumbai WR"], ["x", "y", "Maharashtra"],
       ["3", "D", "E", "F", "G"], ["x", "y"]] =
      [mkStation ["1", "ST", "Surat", "WR", "Surat WR"] ["x", "y", "Gujarat"],
       mkStation ["2", "BCT", "Mumbai", "WR", "Mumbai WR"] ["x", "y", "Maharashtra"]] :=
  (station_scan_stops_short _ _ _ _ _ _
    (by decide) (by decide) (by decide) (by decide)).1

/-! ## C5: geocoding failure modes -/

/-- C5 counterexample: a geocoder response with a non-success status (an
UpstreamUnavailable condition) and a successful response with zero results
produce the same value `none`; the two failure modes are not surfaced
distinctly by `geocode_station`, whose caller maps both to the same
"Geocoding failed" 502. -/
theorem geocode_conflation_counterexample :
    geocode_station ⟨500, [⟨"12.9", "77.6"⟩]⟩ = none ∧
    geocode_station ⟨200, []⟩ = none ∧
    geocode_station ⟨500, [⟨"12.9", "77.6"⟩]⟩ = geocode_station ⟨200, []⟩ := by
  refine ⟨rfl, rfl, rfl⟩

/-- C5 as amended: on a completed geocoder response, zero results are
signalled as the value `none` (no exception is raised: `geocode_station` is a
total function on completed responses), but a non-success status is signalled
by that same value, so the two conditions are conflated rather than surfaced
distinctly; the first hit is returned otherwise.  (A timeout or transport
failure raises inside the request call and never reaches this logic.) -/
theorem geocode_none_iff (resp : NominatimResponse) :
    (geocode_station resp = none ↔ (resp.status ≠ 200 ∨ resp.body = [])) ∧
    (∀ h t, resp.status = 200 → resp.body = h :: t → geocode_station resp = some h) := by
  obtain ⟨st, body⟩ := resp
  constructor
  · by_cases hs : st = 200
    · cases body <;> simp [geocode_station, hs]
    · simp [geocode_station, hs]
  · intro h t hst hb
    simp only at hst hb
    subst hst hb
    simp [geocode_station]

/-- C5 witness: the amended theorem applied to the two interesting concrete
responses. -/
theorem geocode_none_iff_witness :
    geocode_station ⟨200, []⟩ = none ∧
    geocode_station ⟨200, [⟨"12.9", "77.6"⟩]⟩ = some ⟨"12.9", "77.6"⟩ :=
  ⟨(geocode_none_iff ⟨200, []⟩).1.mpr (Or.inr rfl),
   (geocode_none_iff ⟨200, [⟨"12.9", "77.6"⟩]⟩).2 _ _ rfl rfl⟩

/-! ## C6: timetable row gate and cell positions -/

/-- C6: a stop row is emitted exactly when its parent container has at least
17 direct child cells; a shorter row is discarded and the scan continues with
the remaining rows; an emitted row takes code from position 2, station name
from position 3, arrives from position 6, departs from position 8 and
platform from position 11. -/
theorem timetable_row_gate (pre post : List (List String)) (cells : List String) :
    extract_timetable (pre ++ cells :: post) =
      extract_timetable pre ++
      (if cells.length < 17 then [] else
        [{ code := cells.getD 2 ""
           station_name := cells.getD 3 ""
           arrives := cells.getD 6 ""
           departs := cells.getD 8 ""
           platform := cells.getD 11 "" }]) ++
      extract_timetable post := by
  by_cases h : cells.length < 17 <;>
    simp [extract_timetable, List.filterMap_append, List.filterMap_cons, h]

/-! ## C7: cache round trip and TTL expiry -/

/-- C7: `set(k, v)` followed by an immediate `get(k)` returns `v` and leaves
the state unchanged; and whenever the stored timestamp of `k` is older than
the fixed 6-hour TTL at read time, `get(k)` misses and removes the entry. -/
theorem cache_set_get_ttl {V : Type} (c : CacheState V) (k : String) (v : V)
    (now : Nat) :
    cache_get (cache_set c k v now) k now = (some v, cache_set c k v now) ∧
    (∀ ts w now2, cacheFind c k = some (ts, w) → CACHE_TTL_SECONDS < now2 - ts →
      cache_get c k now2 = (none, cacheErase c k) ∧
      cacheFind (cacheErase c k) k = none) := by
  constructor
  · have hfind : cacheFind (cache_set c k v now) k = some (now, v) := by
      simp [cacheFind, cache_set, List.find?_cons]
    simp [cache_get, hfind, Nat.sub_self, CACHE_TTL_SECONDS]
  · intro ts w now2 hfind hexp
    have hnone : cacheFind (cacheErase c k) k = none := by
      simp only [cacheFind, cacheErase]
      refine Option.map_eq_none'.mpr (List.find?_eq_none.mpr ?_)
      intro e he
      simpa using (List.mem_filter.mp he).2
    refine ⟨?_, hnone⟩
    simp [cache_get, hfind, hexp]

/-! ## C2: layout dispatch by the destination parameter -/

/-- C2: the cell-position layout is chosen solely by the (normalized)
destination parameter, never by inspecting the markup: every emitted record
is unchanged when the other layout's cells are erased, and its fields come
from fixed positions — direct child cells 0,2,3,4,5,6,7,9 (plus the title
fallback at 1 inside `directName`) with a destination, bordered cells
0,1,2,3,4,6,7,8,9 without one. -/
theorem departures_layout_dispatch (sid dest : String) (b : Block) (r : DepRecord)
    (h : processBlock sid dest b = some r) :
    processBlock sid dest
      (if dest = "0" then { b with directCells := [] }
       else { b with borderedCells := [] }) = some r ∧
    r.train_no = (if dest = "0" then borT b 0 else dirT b 0) ∧
    r.name = (if dest = "0" then routedName b else directName b) ∧
    r.ttype = (if dest = "0" then borT b 2 else dirT b 2) ∧
    r.zone = (if dest = "0" then borT b 3 else dirT b 3) ∧
    r.platform = (if dest = "0" then borT b 4 else dirT b 5) ∧
    r.from_stn = (if dest = "0" then borT b 6 else dirT b 4) ∧
    r.to_stn = (if dest = "0" then borT b 8 else dirT b 7) ∧
    r.departure_time = (if dest = "0" then borT b 9 else dirT b 9) ∧
    r.arrival_time = (if dest = "0" then borT b 7 else dirT b 6) := by
  by_cases hd : dest = "0"
  · subst hd
    have h' : mkRecord sid "0" (canonicalSlug b) (recoveredId b) (borT b 0)
        (routedName b) (borT b 2) (borT b 3) (borT b 4) (borT b 6) (borT b 7)
        (borT b 8) (borT b 9) = some r := by
      simpa [processBlock] using h
    obtain ⟨⟨tns, htn, _, hrt⟩, ⟨nms, hnm, _, hrn⟩, hty, hzo, hpf, hfr, hdp, hto,
      har, _⟩ := mkRecord_eq_some h'
    refine ⟨?_, ?_, ?_, ?_, ?_, ?_, ?_, ?_, ?_, ?_⟩
    · rw [if_pos rfl, processBlock_routed_ignores_direct]; exact h
    · rw [if_pos rfl, hrt, htn]
    · rw [if_pos rfl, hrn, hnm]
    · rw [if_pos rfl]; exact hty
    · rw [if_pos rfl]; exact hzo
    · rw [if_pos rfl]; exact hpf
    · rw [if_pos rfl]; exact hfr
    · rw [if_pos rfl]; exact hto
    · rw [if_pos rfl]; exact hdp
    · rw [if_pos rfl]; exact har
  · have h' : mkRecord sid dest (canonicalSlug b) (recoveredId b) (dirT b 0)
        (directName b) (dirT b 2) (dirT b 3) (dirT b 5) (dirT b 4) (dirT b 6)
        (dirT b 7) (dirT b 9) = some r := by
      simpa [processBlock, hd] using h
    obtain ⟨⟨tns, htn, _, hrt⟩, ⟨nms, hnm, _, hrn⟩, hty, hzo, hpf, hfr, hdp, hto,
      har, _⟩ := mkRecord_eq_some h'
    refine ⟨?_, ?_, ?_, ?_, ?_, ?_, ?_, ?_, ?_, ?_⟩
    · rw [if_neg hd, processBlock_direct_ignores_bordered sid dest hd]; exact h
    · rw [if_neg hd, hrt, htn]
    · rw [if_neg hd, hrn, hnm]
    · rw [if_neg hd]; exact hty
    · rw [if_neg hd]; exact hzo
    · rw [if_neg hd]; exact hpf
    · rw [if_neg hd]; exact hfr
    · rw [if_neg hd]; exact hto
    · rw [if_neg hd]; exact hdp
    · rw [if_neg hd]; exact har

/-- A concrete direct-layout block: no timetable anchor, an internal id on
the sibling block, ten direct child cells. -/
def wBlockD : Block :=
  { anchors := []
    siblingT := some "12345"
    directCells := ["12951", "Mumbai Rajdhani", "Raj", "WR", "BCT", "1",
      "17:00", "NDLS", "", "08:32"]
    borderedCells := [] }

/-- The record `processBlock` emits for `wBlockD` with destination "1234". -/
def wRecD : DepRecord :=
  { train_no := some "12951"
    name := some "Mumbai Rajdhani"
    ttype := some "Raj"
    zone := some "WR"
    platform := some "1"
    from_stn := some "BCT"
    departure_time := some "08:32"
    to_stn := some "NDLS"
    arrival_time := some "17:00"
    train_url := some "/train/timetable/mumbai-rajdhani-12951/12345/957/1234" }

/-- C2 witness: the dispatch theorem at the concrete direct-layout block. -/
theorem departures_layout_dispatch_witness :
    wRecD.departure_time = (if ("1234" : String) = "0" then borT wBlockD 9 else dirT wBlockD 9) ∧
    wRecD.platform = (if ("1234" : String) = "0" then borT wBlockD 4 else dirT wBlockD 5) := by
  have h := departures_layout_dispatch "957" "1234" wBlockD wRecD (by decide)
  exact ⟨h.2.2.2.2.2.2.2.2.1, h.2.2.2.2.2.1⟩

/-! ## C3: the departure/arrival label swap -/

/-- C3: in both layouts the field labelled `departure_time` stores the text
of the cell read as the arrival cell (position 9), and the field labelled
`arrival_time` stores the text of the cell read as the departure cell
(position 6 direct, position 7 routed): the source system's label-to-cell
swap is preserved literally. -/
theorem departures_time_label_swap (sid dest : String) (b : Block) (r : DepRecord)
    (h : processBlock sid dest b = some r) :
    r.departure_time = (if dest = "0" then borT b 9 else dirT b 9) ∧
    r.arrival_time = (if dest = "0" then borT b 7 else dirT b 6) := by
  by_cases hd : dest = "0"
  · subst hd
    have h' : mkRecord sid "0" (canonicalSlug b) (recoveredId b) (borT b 0)
        (routedName b) (borT b 2) (borT b 3) (borT b 4) (borT b 6) (borT b 7)
        (borT b 8) (borT b 9) = some r := by
      simpa [processBlock] using h
    obtain ⟨_, _, _, _, _, _, hdp, _, har, _⟩ := mkRecord_eq_some h'
    simpa using ⟨hdp, har⟩
  · have h' : mkRecord sid dest (canonicalSlug b) (recoveredId b) (dirT b 0)
        (directName b) (dirT b 2) (dirT b 3) (dirT b 5) (dirT b 4) (dirT b 6)
        (dirT b 7) (dirT b 9) = some r := by
      simpa [processBlock, hd] using h
    obtain ⟨_, _, _, _, _, _, hdp, _, har, _⟩ := mkRecord_eq_some h'
    simp only [if_neg hd]
    exact ⟨hdp, har⟩

/-- A concrete routed-layout block: ten bordered cells, no anchors, no
sibling id. -/
def wBlockR : Block :=
  { anchors := []
    siblingT := none
    directCells := []
    borderedCells := [⟨"22222", none⟩, ⟨"Duronto", none⟩, ⟨"Dur", none⟩,
      ⟨"CR", none⟩, ⟨"3", none⟩, ⟨"x", none⟩, ⟨"CSMT", none⟩, ⟨"09:10", none⟩,
      ⟨"HWH", none⟩, ⟨"21:40", none⟩] }

/-- The record `processBlock` emits for `wBlockR` without a destination. -/
def wRecR : DepRecord :=
  { train_no := some "22222"
    name := some "Duronto"
    ttype := some "Dur"
    zone := some "CR"
    platform := some "3"
    from_stn := some "CSMT"
    departure_time := some "21:40"
    to_stn := some "HWH"
    arrival_time := some "09:10"
    train_url := none }

/-- C3 witness: the label-swap theorem at the concrete routed-layout block. -/
theorem departures_time_label_swap_witness :
    wRecR.departure_time = (if ("0" : String) = "0" then borT wBlockR 9 else dirT wBlockR 9) ∧
    wRecR.arrival_time = (if ("0" : String) = "0" then borT wBlockR 7 else dirT wBlockR 6) :=
  departures_time_label_swap "957" "0" wBlockR wRecR (by decide)

/-! ## C4: record acceptance, link synthesis and slug fallback -/

/-- `trainUrlOf` is non-`none` exactly when the recovered identifier is a
present, non-empty string. -/
theorem trainUrlOf_ne_none_iff (sid dest : String) (slugC idC : Option String)
    (tns nms : String) :
    trainUrlOf sid dest slugC idC tns nms ≠ none ↔ ∃ i, idC = some i ∧ i ≠ "" := by
  cases idC with
  | none => simp [trainUrlOf]
  | some i =>
    by_cases hi : i = "" <;> simp [trainUrlOf, hi]

/-- C4: every emitted record has a non-empty `train_no` and a non-empty
`name` (a failing block is dropped and the scan continues); the timetable
link is non-null exactly when a non-empty internal identifier was recovered
(from the anchor path or the sibling's `t` attribute); and when no canonical
slug came from the anchor path, the link uses `slugify(name ++ "-" ++
train_no)`. -/
theorem departures_record_invariants (sid dest : String) (b : Block)
    (r : DepRecord) (h : processBlock sid dest b = some r) :
    (∃ tn, r.train_no = some tn ∧ tn ≠ "") ∧
    (∃ nm, r.name = some nm ∧ nm ≠ "") ∧
    (r.train_url ≠ none ↔ ∃ i, recoveredId b = some i ∧ i ≠ "") ∧
    (∀ i tn nm, canonicalSlug b = none → recoveredId b = some i → i ≠ "" →
      r.train_no = some tn → r.name = some nm →
      r.train_url = some ("/train/timetable/" ++ slugify (nm ++ "-" ++ tn) ++
        "/" ++ i ++ "/" ++ sid ++ "/" ++ dest)) ∧
    (∀ pre post b0, processBlock sid dest b0 = none →
      extract_departures sid dest (pre ++ b0 :: post) =
        extract_departures sid dest (pre ++ post)) := by
  have main : ∀ tnA nmA tyA zoA pfA frA dpA toA arA,
      mkRecord sid dest (canonicalSlug b) (recoveredId b) tnA nmA tyA zoA pfA
        frA dpA toA arA = some r →
      (∃ tn, r.train_no = some tn ∧ tn ≠ "") ∧
      (∃ nm, r.name = some nm ∧ nm ≠ "") ∧
      (r.train_url ≠ none ↔ ∃ i, recoveredId b = some i ∧ i ≠ "") ∧
      (∀ i tn nm, canonicalSlug b = none → recoveredId b = some i → i ≠ "" →
        r.train_no = some tn → r.name = some nm →
        r.train_url = some ("/train/timetable/" ++ slugify (nm ++ "-" ++ tn) ++
          "/" ++ i ++ "/" ++ sid ++ "/" ++ dest)) := by
    intro tnA nmA tyA zoA pfA frA dpA toA arA h'
    obtain ⟨⟨tns, htn, htne, hrt⟩, ⟨nms, hnm, hnme, hrn⟩, _, _, _, _, _, _, _,
      hurl⟩ := mkRecord_eq_some h'
    have hu : r.train_url = trainUrlOf sid dest (canonicalSlug b)
        (recoveredId b) tns nms := hurl tns nms htn hnm
    refine ⟨⟨tns, hrt, htne⟩, ⟨nms, hrn, hnme⟩, ?_, ?_⟩
    · rw [hu]; exact trainUrlOf_ne_none_iff sid dest (canonicalSlug b)
        (recoveredId b) tns nms
    · intro i tn nm hslug hid hie htn' hnm'
      have e1 : tn = tns := by
        rw [hrt] at htn'; exact (Option.some.inj htn').symm
      have e2 : nm = nms := by
        rw [hrn] at hnm'; exact (Option.some.inj hnm').symm
      subst e1; subst e2
      rw [hu, hslug, hid]
      simp [trainUrlOf, hie, pyOrS]
  have skip : ∀ pre post b0, processBlock sid dest b0 = none →
      extract_departures sid dest (pre ++ b0 :: post) =
        extract_departures sid dest (pre ++ post) := by
    intro pre post b0 hb0
    simp [extract_departures, List.filterMap_append, List.filterMap_cons, hb0]
  by_cases hd : dest = "0"
  · subst hd
    have h' : mkRecord sid "0" (canonicalSlug b) (recoveredId b) (borT b 0)
        (routedName b) (borT b 2) (borT b 3) (borT b 4) (borT b 6) (borT b 7)
        (borT b 8) (borT b 9) = some r := by
      simpa [processBlock] using h
    obtain ⟨a1, a2, a3, a4⟩ := main _ _ _ _ _ _ _ _ _ h'
    exact ⟨a1, a2, a3, a4, skip⟩
  · have h' : mkRecord sid dest (canonicalSlug b) (recoveredId b) (dirT b 0)
        (directName b) (dirT b 2) (dirT b 3) (dirT b 5) (dirT b 4) (dirT b 6)
        (dirT b 7) (dirT b 9) = some r := by
      simpa [processBlock, hd] using h
    obtain ⟨a1, a2, a3, a4⟩ := main _ _ _ _ _ _ _ _ _ h'
    exact ⟨a1, a2, a3, a4, skip⟩

/-- C4 witness: the invariants at the concrete direct-layout block, whose
identifier comes from the sibling attribute and whose slug is synthesized. -/
theorem departures_record_invariants_witness :
    wRecD.train_url = some ("/train/timetable/" ++
      slugify ("Mumbai Rajdhani" ++ "-" ++ "12951") ++ "/" ++ "12345" ++ "/" ++
      "957" ++ "/" ++ "1234") := by
  have h := departures_record_invariants "957" "1234" wBlockD wRecD (by decide)
  exact h.2.2.2.1 "12345" "12951" "Mumbai Rajdhani" (by decide) (by decide)
    (by decide) (by decide) (by decide)

/-! ## C9: the emergency flag of parsed spatial-result elements -/

/-- A node element with one amenity tag, as in the spec's examples. -/
def elAmen (a : String) : OsmElement :=
  ⟨"node", some "12.9", some "77.6", none, [("amenity", a)], some 1⟩

/-- A node element with an amenity tag and a contact:phone tag. -/
def elPhone (a : String) : OsmElement :=
  ⟨"node", some "12.9", some "77.6", none,
    [("amenity", a), ("contact:phone", "+911234567890")], some 2⟩

/-- The emergency condition as the parser computes it, characterised over
the tag dictionary. -/
theorem emergencyOf_iff (tags : List (String × String)) :
    emergencyOf tags = true ↔
      ((∃ v, tagGet tags "amenity" = some v ∧
        (hasSub "police".data v.data = true ∨ hasSub "hospital".data v.data = true)) ∨
       (∃ v, tagGet tags "emergency" = some v ∧ v ≠ "") ∨
       (∃ v, tagGet tags "emergency_phone" = some v ∧ v ≠ "") ∨
       (∃ v, tagGet tags "contact:phone" = some v ∧ v ≠ "")) := by
  have hpol : hasSub "police".data (("" : String)).data = false := by decide
  have hhos : hasSub "hospital".data (("" : String)).data = false := by decide
  cases hA : tagGet tags "amenity" with
  | none =>
    simp [emergencyOf, hA, hpol, hhos, pyTruthy_iff, or_assoc]
  | some v =>
    simp [emergencyOf, hA, pyTruthy_iff, or_assoc, exists_and_left]

/-- Any parsed element carries `emergencyOf` of its tags as its flag. -/
theorem parseElement_emergency (el : OsmElement) (poi : POI)
    (h : parseElement el = some poi) : poi.emergency = emergencyOf el.tags := by
  by_cases he : el.etype = "node"
  · simp only [parseElement, if_pos he] at h
    obtain rfl := Option.some.inj h.symm
    rfl
  · simp only [parseElement, if_neg he] at h
    cases hc : el.center with
    | none => rw [hc] at h; exact absurd h (by simp)
    | some c =>
      rw [hc] at h
      obtain rfl := Option.some.inj h.symm
      rfl

/-- C9: for every parsed spatial-result element, the emergency flag is true
exactly when the amenity value contains "police" or "hospital", or any of
the `emergency`, `emergency_phone` or `contact:phone` tags is present with a
non-empty value; in particular `{amenity: hospital}` yields true,
`{amenity: bus_stop}` yields false, and `{contact:phone: "+91..."}` yields
true regardless of the amenity value. -/
theorem overpass_emergency_flag :
    (∀ el poi, parseElement el = some poi → (poi.emergency = true ↔
      ((∃ v, tagGet el.tags "amenity" = some v ∧
        (hasSub "police".data v.data = true ∨ hasSub "hospital".data v.data = true)) ∨
       (∃ v, tagGet el.tags "emergency" = some v ∧ v ≠ "") ∨
       (∃ v, tagGet el.tags "emergency_phone" = some v ∧ v ≠ "") ∨
       (∃ v, tagGet el.tags "contact:phone" = some v ∧ v ≠ "")))) ∧
    (parseElement (elAmen "hospital")).map POI.emergency = some true ∧
    (parseElement (elAmen "bus_stop")).map POI.emergency = some false ∧
    (∀ a : String, (parseElement (elPhone a)).map POI.emergency = some true) := by
  refine ⟨?_, by decide, by decide, ?_⟩
  · intro el poi h
    rw [parseElement_emergency el poi h]
    exact emergencyOf_iff el.tags
  · intro a
    have h1 : (("amenity" : String) == "contact:phone") = false := by decide
    have h2 : (("contact:phone" : String) == "contact:phone") = true := by decide
    have hphone : tagGet [("amenity", a), ("contact:phone", "+911234567890")]
        "contact:phone" = some "+911234567890" := by
      simp [tagGet, List.find?, h1, h2]
    have hval : emergencyOf [("amenity", a), ("contact:phone", "+911234567890")] = true := by
      unfold emergencyOf
      rw [hphone]
      simp [pyTruthy]
    simp [parseElement, elPhone, mkPOI, hval]

/-- C9 witness: the flag characterisation applied to the concrete hospital
node. -/
theorem overpass_emergency_flag_witness :
    (mkPOI (elAmen "hospital") "12.9" "77.6").emergency = true :=
  (overpass_emergency_flag.1 (elAmen "hospital")
      (mkPOI (elAmen "hospital") "12.9" "77.6") (by decide)).mpr
    (Or.inl ⟨"hospital", by decide, Or.inr (by decide)⟩)

/-! ## C10: destination normalization at the departures interface -/

/-- C10 counterexample: the raw destination `" 0 "` is non-missing,
non-empty, not whitespace-only (its strip is `"0"`, not empty) and not the
literal string `"0"`, yet it is normalized to `"0"` and so selects the
routed (no-destination) layout, against the claim that any such value
selects the direct layout: the interface strips the value before applying
the `"0"` default. -/
theorem dest_normalization_counterexample :
    normalizeDest (some " 0 ") = "0" ∧
    (" 0 " : String) ≠ "" ∧
    pyStrip " 0 " ≠ "" ∧
    (" 0 " : String) ≠ "0" ∧
    normalizeDest (some " 0 ") = normalizeDest none := by
  refine ⟨by decide, by decide, by decide, by decide, by decide⟩

/-- C10 as amended: a missing destination, or one whose whitespace-stripped
value is empty or `"0"`, is normalized to `"0"` and selects the routed
layout (which never reads the direct child cells); any destination whose
stripped value is non-empty and differs from `"0"` is passed through
stripped and selects the direct layout (which never reads the bordered
cells); consequently a destination whose identifier is literally `"0"` is
indistinguishable from an absent destination. -/
theorem dest_normalization (s : String) :
    normalizeDest none = "0" ∧
    (normalizeDest (some s) = "0" ↔ (pyStrip s = "" ∨ pyStrip s = "0")) ∧
    (pyStrip s ≠ "" → normalizeDest (some s) = pyStrip s) ∧
    normalizeDest (some "0") = normalizeDest none ∧
    (∀ sid b dc, processBlock sid (normalizeDest none) { b with directCells := dc } =
      processBlock sid (normalizeDest none) b) ∧
    (pyStrip s ≠ "" → pyStrip s ≠ "0" → ∀ sid b bc,
      processBlock sid (normalizeDest (some s)) { b with borderedCells := bc } =
      processBlock sid (normalizeDest (some s)) b) := by
  refine ⟨rfl, ?_, ?_, by decide, ?_, ?_⟩
  · by_cases hs : pyStrip s = ""
    · simp [normalizeDest, hs]
    · simp [normalizeDest, hs]
  · intro hs
    simp [normalizeDest, hs]
  · intro sid b dc
    exact processBlock_routed_ignores_direct sid b dc
  · intro hs h0 sid b bc
    have hn : normalizeDest (some s) = pyStrip s := by simp [normalizeDest, hs]
    rw [hn]
    exact processBlock_direct_ignores_bordered sid (pyStrip s) h0 b bc

/-- C10 witness: the amended theorem at the concrete raw value `" x "`. -/
theorem dest_normalization_witness :
    normalizeDest (some " x ") = pyStrip " x " :=
  (dest_normalization " x ").2.2.1 (by decide)

/-! ## C8: the slug normalizer is idempotent and shape-correct -/

/-- Acceptor state of `^[a-z0-9]+(-[a-z0-9]+)*$` after at least one group
character has been consumed: the input may end, continue the current group
with a class character, or start a new group with `-` followed by a class
character. -/
def slugAfter : List Char → Bool
  | [] => true
  | c :: rest =>
    if c = '-' then
      match rest with
      | [] => false
      | d :: rest2 => isLowerDigit d && slugAfter rest2
    else isLowerDigit c && slugAfter rest

/-- The regular expression `^[a-z0-9]+(-[a-z0-9]+)*$` as a decidable
acceptor: a first `[a-z0-9]` character, then `slugAfter`. -/
def matchesSlugRegex (s : String) : Bool :=
  match s.data with
  | [] => false
  | c :: rest => isLowerDigit c && slugAfter rest

/-- No two adjacent hyphens. -/
def noDoubleHyphen (l : List Char) : Prop :=
  List.Chain' (fun a b => ¬(a = '-' ∧ b = '-')) l

theorem collapseHyphens_sublist (l : List Char) :
    List.Sublist (collapseHyphens l) l := by
  induction l using collapseHyphens.induct with
  | case1 => simp [collapseHyphens]
  | case2 c => simp [collapseHyphens]
  | case3 a b rest h ih =>
    rw [collapseHyphens, if_pos h]
    exact ih.cons a
  | case4 a b rest h ih =>
    rw [collapseHyphens, if_neg h]
    exact ih.cons₂ a

theorem collapseHyphens_head? (l : List Char) :
    (collapseHyphens l).head? = l.head? := by
  induction l using collapseHyphens.induct with
  | case1 => rfl
  | case2 c => rfl
  | case3 a b rest h ih =>
    rw [collapseHyphens, if_pos h, ih]
    simp [h.1, h.2]
  | case4 a b rest h ih =>
    rw [collapseHyphens, if_neg h]
    rfl

theorem collapseHyphens_noDouble (l : List Char) :
    noDoubleHyphen (collapseHyphens l) := by
  induction l using collapseHyphens.induct with
  | case1 => simp [collapseHyphens, noDoubleHyphen]
  | case2 c => simp [collapseHyphens, noDoubleHyphen]
  | case3 a b rest h ih =>
    rw [collapseHyphens, if_pos h]
    exact ih
  | case4 a b rest h ih =>
    rw [collapseHyphens, if_neg h]
    refine List.chain'_cons'.mpr ⟨?_, ih⟩
    intro y hy
    rw [collapseHyphens_head? (b :: rest)] at hy
    obtain rfl : b = y := by simpa using hy
    exact h

theorem collapseHyphens_eq_self (l : List Char) (h : noDoubleHyphen l) :
    collapseHyphens l = l := by
  induction l using collapseHyphens.induct with
  | case1 => rfl
  | case2 c => rfl
  | case3 a b rest hab ih =>
    exact absurd hab (List.chain'_cons.mp h).1
  | case4 a b rest hab ih =>
    rw [collapseHyphens, if_neg hab, ih (List.chain'_cons.mp h).2]

/-- `stripHyphens` is `rdropWhile` after `dropWhile`. -/
theorem stripHyphens_eq (l : List Char) :
    stripHyphens l =
      List.rdropWhile (fun c => c == '-') (List.dropWhile (fun c => c == '-') l) := rfl

/-- The head of a `dropWhile` result never satisfies the predicate. -/
theorem head?_dropWhile_not {α : Type} (p : α → Bool) (l : List α) :
    ∀ c, (l.dropWhile p).head? = some c → p c = false := by
  induction l with
  | nil => intro c hc; simp at hc
  | cons x xs ih =>
    intro c hc
    by_cases hp : p x
    · rw [List.dropWhile_cons, if_pos hp] at hc
      exact ih c hc
    · rw [List.dropWhile_cons, if_neg hp] at hc
      obtain rfl : x = c := by simpa using hc
      simpa using hp

/-- `stripHyphens` is an infix of its input. -/
theorem stripHyphens_within (l : List Char) :
    List.IsInfix (stripHyphens l) l := by
  rw [stripHyphens_eq]
  exact List.IsInfix.trans
    (List.IsPrefix.isInfix (List.rdropWhile_prefix _ _))
    (List.IsSuffix.isInfix (List.dropWhile_suffix _))

/-- The head of a `stripHyphens` result is not a hyphen. -/
theorem stripHyphens_head (l : List Char) :
    ∀ c, (stripHyphens l).head? = some c → c ≠ '-' := by
  intro c hc
  rw [stripHyphens_eq] at hc
  obtain ⟨t, ht⟩ := List.rdropWhile_prefix (fun c => c == '-')
    (List.dropWhile (fun c => c == '-') l)
  have hne : List.rdropWhile (fun c => c == '-')
      (List.dropWhile (fun c => c == '-') l) ≠ [] := by
    intro h0
    rw [h0] at hc
    simp at hc
  have hh : (List.dropWhile (fun c => c == '-') l).head? = some c := by
    rw [← ht, List.head?_append_of_ne_nil _ hne]
    exact hc
  have := head?_dropWhile_not (fun c => c == '-') l c hh
  simpa using this

/-- The last element of a `stripHyphens` result is not a hyphen. -/
theorem stripHyphens_last (l : List Char) :
    ∀ c, (stripHyphens l).getLast? = some c → c ≠ '-' := by
  intro c hc
  rw [stripHyphens_eq] at hc
  have hne : List.rdropWhile (fun c => c == '-')
      (List.dropWhile (fun c => c == '-') l) ≠ [] := by
    intro h0
    rw [h0] at hc
    simp at hc
  have hlast := List.rdropWhile_last_not (fun c => c == '-')
    (List.dropWhile (fun c => c == '-') l) hne
  rw [List.getLast?_eq_getLast_of_ne_nil hne] at hc
  obtain rfl : _ = c := by exact Option.some.inj hc
  simpa using hlast

/-- A slug-class character is not one of the characters the earlier phases
rewrite. -/
theorem slugClass_not_special (c : Char) (h : inSlugClass c = true) :
    c ≠ '(' ∧ c ≠ ')' ∧ c ≠ '/' ∧ c ≠ ' ' ∧ c ≠ '&' := by
  refine ⟨?_, ?_, ?_, ?_, ?_⟩ <;> (rintro rfl; exact absurd h (by decide))

/-- `asciiLower` fixes slug-class characters. -/
theorem asciiLower_fix (c : Char) (h : inSlugClass c = true) :
    asciiLower c = c := by
  unfold asciiLower
  rw [if_neg]
  intro hrange
  unfold inSlugClass isLowerDigit at h
  rcases Bool.or_eq_true _ _ |>.mp h with h1 | h2
  · rcases Bool.or_eq_true _ _ |>.mp h1 with h3 | h3 <;>
    · rw [Bool.and_eq_true] at h3
      obtain ⟨ha, hb⟩ := h3
      rw [decide_eq_true_iff] at ha hb
      omega
  · obtain rfl : c = '-' := by simpa using h2
    simp at hrange

/-- Any list of slug-class characters with no adjacent hyphens and no final
hyphen is accepted by the after-state of the slug regex. -/
theorem slugAfter_of_conditions : ∀ (n : Nat) (l : List Char), l.length ≤ n →
    (∀ c ∈ l, inSlugClass c = true) → noDoubleHyphen l →
    (∀ c, l.getLast? = some c → c ≠ '-') → slugAfter l = true := by
  intro n
  induction n with
  | zero =>
    intro l hl _ _ _
    have : l = [] := List.length_eq_zero.mp (Nat.le_zero.mp hl)
    subst this
    rfl
  | succ n ih =>
    intro l hl hmem hchain hlast
    cases l with
    | nil => rfl
    | cons c rest =>
      by_cases hc : c = '-'
      · subst hc
        cases rest with
        | nil => exact absurd rfl (hlast '-' rfl)
        | cons d rest2 =>
          have hchain2 := List.chain'_cons.mp hchain
          have hd : d ≠ '-' := fun hdeq => hchain2.1 ⟨rfl, hdeq⟩
          have hdclass := hmem d (by simp)
          have hdl : isLowerDigit d = true := by
            unfold inSlugClass at hdclass
            rcases (Bool.or_eq_true _ _).mp hdclass with h | h
            · exact h
            · exact absurd (by simpa using h) hd
          show slugAfter ('-' :: d :: rest2) = true
          simp only [slugAfter, if_pos rfl]
          rw [hdl, Bool.true_and]
          refine ih rest2 ?_ ?_ ?_ ?_
          · simp only [List.length_cons] at hl ⊢; omega
          · intro x hx; exact hmem x (by simp [hx])
          · exact hchain.tail.tail
          · intro x hx
            apply hlast x
            cases rest2 with
            | nil => simp at hx
            | cons e rest3 =>
              rw [List.getLast?_cons_cons, List.getLast?_cons_cons]
              exact hx
      · have hcclass := hmem c (by simp)
        have hcl : isLowerDigit c = true := by
          unfold inSlugClass at hcclass
          rcases (Bool.or_eq_true _ _).mp hcclass with h | h
          · exact h
          · exact absurd (by simpa using h) hc
        cases rest with
        | nil =>
          show (if c = '-' then false else isLowerDigit c && slugAfter []) = true
          rw [if_neg hc, hcl]
          rfl
        | cons e rest3 =>
          show (if c = '-' then isLowerDigit e && slugAfter rest3
                else isLowerDigit c && slugAfter (e :: rest3)) = true
          rw [if_neg hc, hcl, Bool.true_and]
          refine ih (e :: rest3) ?_ ?_ ?_ ?_
          · simp only [List.length_cons] at hl ⊢; omega
          · intro x hx; exact hmem x (by simp [hx])
          · exact hchain.tail
          · intro x hx
            apply hlast x
            rw [List.getLast?_cons_cons]
            exact hx

/-- A non-empty list of slug-class characters with no adjacent hyphens and
hyphen-free ends matches the slug regex. -/
theorem slug_shape (y : List Char) (hmem : ∀ c ∈ y, inSlugClass c = true)
    (hchain : noDoubleHyphen y) (hhead : ∀ c, y.head? = some c → c ≠ '-')
    (hlast : ∀ c, y.getLast? = some c → c ≠ '-') :
    y = [] ∨ matchesSlugRegex (String.mk y) = true := by
  cases y with
  | nil => exact Or.inl rfl
  | cons c rest =>
    right
    have hc : c ≠ '-' := hhead c rfl
    have hcclass := hmem c (by simp)
    have hcl : isLowerDigit c = true := by
      unfold inSlugClass at hcclass
      rcases (Bool.or_eq_true _ _).mp hcclass with h | h
      · exact h
      · exact absurd (by simpa using h) hc
    show (isLowerDigit c && slugAfter rest) = true
    rw [hcl, Bool.true_and]
    refine slugAfter_of_conditions rest.length rest le_rfl ?_ hchain.tail ?_
    · intro x hx; exact hmem x (by simp [hx])
    · intro x hx
      apply hlast x
      cases rest with
      | nil => simp at hx
      | cons e rest3 =>
        rw [List.getLast?_cons_cons]
        exact hx

/-- `flatMap` of a function mapping every member to its singleton is the
identity. -/
theorem flatMap_singleton_id (f : Char → List Char) (l : List Char)
    (h : ∀ c ∈ l, f c = [c]) : l.flatMap f = l := by
  induction l with
  | nil => rfl
  | cons a as ih =>
    rw [List.flatMap_cons, h a (by simp), ih (fun c hc => h c (by simp [hc]))]
    rfl

/-- `map` of a function fixing every member is the identity. -/
theorem map_id_of (f : Char → Char) (l : List Char) (h : ∀ c ∈ l, f c = c) :
    l.map f = l := by
  induction l with
  | nil => rfl
  | cons a as ih =>
    rw [List.map_cons, h a (by simp), ih (fun c hc => h c (by simp [hc]))]

/-- On a list of slug-class characters, re-running the slug pipeline after
`collapseHyphens` and `stripHyphens` changes nothing, and the result is empty
or matches the slug regex. -/
theorem slug_phases (z : List Char) (hmemz : ∀ c ∈ z, inSlugClass c = true) :
    slugify (String.mk (stripHyphens (collapseHyphens z))) =
      String.mk (stripHyphens (collapseHyphens z)) ∧
    (stripHyphens (collapseHyphens z) = [] ∨
      matchesSlugRegex (String.mk (stripHyphens (collapseHyphens z))) = true) := by
  have hmem : ∀ c ∈ stripHyphens (collapseHyphens z), inSlugClass c = true := by
    intro c hc
    exact hmemz c ((collapseHyphens_sublist z).subset
      (((stripHyphens_within (collapseHyphens z)).sublist).subset hc))
  have hchain : noDoubleHyphen (stripHyphens (collapseHyphens z)) :=
    List.Chain'.infix (collapseHyphens_noDouble z) (stripHyphens_within _)
  have hhead := stripHyphens_head (collapseHyphens z)
  have hlast := stripHyphens_last (collapseHyphens z)
  constructor
  · show String.mk (stripHyphens (collapseHyphens (keepSlugClass (ampToAnd
      (slashSpaceToHyphen (dropParens ((stripHyphens (collapseHyphens z)).map
        asciiLower))))))) = String.mk (stripHyphens (collapseHyphens z))
    have e1 : (stripHyphens (collapseHyphens z)).map asciiLower =
        stripHyphens (collapseHyphens z) :=
      map_id_of _ _ (fun c hc => asciiLower_fix c (hmem c hc))
    rw [e1]
    have e2 : dropParens (stripHyphens (collapseHyphens z)) =
        stripHyphens (collapseHyphens z) := by
      refine List.filter_eq_self.mpr ?_
      intro c hc
      obtain ⟨h1, h2, _, _, _⟩ := slugClass_not_special c (hmem c hc)
      simp [h1, h2]
    rw [e2]
    have e3 : slashSpaceToHyphen (stripHyphens (collapseHyphens z)) =
        stripHyphens (collapseHyphens z) := by
      refine map_id_of _ _ ?_
      intro c hc
      obtain ⟨_, _, h3, h4, _⟩ := slugClass_not_special c (hmem c hc)
      simp [h3, h4]
    rw [e3]
    have e4 : ampToAnd (stripHyphens (collapseHyphens z)) =
        stripHyphens (collapseHyphens z) := by
      refine flatMap_singleton_id _ _ ?_
      intro c hc
      obtain ⟨_, _, _, _, h5⟩ := slugClass_not_special c (hmem c hc)
      simp [h5]
    rw [e4]
    have e5 : keepSlugClass (stripHyphens (collapseHyphens z)) =
        stripHyphens (collapseHyphens z) :=
      List.filter_eq_self.mpr hmem
    rw [e5]
    have e6 : collapseHyphens (stripHyphens (collapseHyphens z)) =
        stripHyphens (collapseHyphens z) :=
      collapseHyphens_eq_self _ hchain
    rw [e6]
    have e7 : stripHyphens (stripHyphens (collapseHyphens z)) =
        stripHyphens (collapseHyphens z) := by
      rw [stripHyphens_eq (stripHyphens (collapseHyphens z))]
      have h1 : List.dropWhile (fun c => c == '-')
          (stripHyphens (collapseHyphens z)) = stripHyphens (collapseHyphens z) := by
        cases hy : stripHyphens (collapseHyphens z) with
        | nil => rfl
        | cons c rest =>
          rw [List.dropWhile_cons, if_neg]
          have : c ≠ '-' := hhead c (by rw [hy]; rfl)
          simpa using this
      rw [h1]
      refine List.rdropWhile_eq_self_iff.mpr ?_
      intro hne
      have := hlast ((stripHyphens (collapseHyphens z)).getLast hne)
        (List.getLast?_eq_getLast_of_ne_nil hne)
      simpa using this
    rw [e7]
  · exact slug_shape _ hmem hchain hhead hlast

/-- C8: `slugify` is a deterministic total function, idempotent on every
input, and every output is either empty or matches
`^[a-z0-9]+(-[a-z0-9]+)*$` (non-empty groups of lower-case ASCII
alphanumerics separated by single hyphens, no hyphen at either end). -/
theorem slugify_idempotent_and_shape (s : String) :
    slugify (slugify s) = slugify s ∧
    (slugify s = "" ∨ matchesSlugRegex (slugify s) = true) := by
  have h := slug_phases (keepSlugClass (ampToAnd (slashSpaceToHyphen
    (dropParens (s.data.map asciiLower)))))
    (fun c hc => (List.mem_filter.mp hc).2)
  refine ⟨h.1, ?_⟩
  rcases h.2 with h0 | h0
  · left
    show String.mk _ = ""
    rw [h0]
  · right
    exact h0
